import Mathlib

/-!
Verification of the clauder core (persistent store, tool handlers and
protocol engine) against its natural-language specification.

Modelling conventions:
* strings are lists of characters (`Str`);
* timestamps are integers (Go `time.Time` / `time.Duration` arithmetic);
* the SQLite tables are in-memory lists of row structures, and every SQL
  statement of `internal/store/sqlite.go` is modelled by its documented
  relational semantics over those lists (filter / map / sort / take);
* the SQLite `LIKE` operator is modelled with its documented ASCII
  case-insensitivity, and `%` / `_` wildcard semantics;
* the FTS5 `MATCH` operator is modelled by parsing the submitted query
  string: a full-input string literal is matched as a phrase (its tokens
  occurring consecutively among the content tokens);
* Go's `encoding/json` marshalling of a string slice is modelled with its
  documented escaping (quotes, backslashes, control characters and the
  HTML-escaped characters `<`, `>`, `&`).
-/

namespace Clauder

/-- Strings of the model: lists of characters. -/
abbrev Str := List Char

/-- ASCII lower-casing of one character.  SQLite's `LIKE` operator folds
ASCII case by default, so the tag filter of `GetFacts` compares characters
through this map. -/
def lc (c : Char) : Char :=
  if 65 ≤ c.toNat ∧ c.toNat ≤ 90 then Char.ofNat (c.toNat + 32) else c

/-- `strings.ReplaceAll(s, quote, quotequote)`: double every double-quote
character.  Used both by `sanitizeFTSQuery` and by the tag-filter pattern
of `GetFacts`. -/
def escQuote : Str → Str
  | [] => []
  | c :: cs => if c = '"' then '"' :: '"' :: escQuote cs else c :: escQuote cs

/-- `sanitizeFTSQuery` (sqlite.go): escape double quotes by doubling them,
then wrap the entire query in quotes so the FTS engine treats it as a
phrase literal. -/
def sanitizeFTSQuery (query : Str) : Str :=
  '"' :: escQuote query ++ ['"']

/-- Scanner for the body of an FTS5 quoted string: consumes characters up
to the closing quote, undoing the doubled-quote escape.  Returns the
decoded content together with the unconsumed rest of the input; `none` on
an unterminated literal. -/
def scanQuoted : Str → Option (Str × Str)
  | [] => none
  | c :: cs =>
    if c = '"' then
      match cs with
      | '"' :: cs2 => (scanQuoted cs2).map (fun p => ('"' :: p.1, p.2))
      | _ => some ([], cs)
    else
      (scanQuoted cs).map (fun p => (c :: p.1, p.2))

/-- Parse a leading FTS5 string literal: an opening quote, a body with
doubled-quote escapes, a closing quote.  Returns the literal's content and
the rest of the input. -/
def ftsParsePhrase : Str → Option (Str × Str)
  | [] => none
  | c :: cs => if c = '"' then scanQuoted cs else none

/-- A character the FTS5 default tokenizer keeps inside tokens. -/
def tokenChar (c : Char) : Bool := c.isAlphanum

/-- Accumulator-style tokenizer: maximal runs of token characters, folded
to lower case. -/
def tokenizeAux : Str → Str → List Str
  | [], acc => if acc.isEmpty then [] else [acc.reverse]
  | c :: cs, acc =>
    if tokenChar c then tokenizeAux cs (lc c :: acc)
    else if acc.isEmpty then tokenizeAux cs [] else acc.reverse :: tokenizeAux cs []

/-- FTS5-style tokenization of text: maximal alphanumeric runs, folded to
lower case; every other character separates tokens. -/
def tokenize (s : Str) : List Str := tokenizeAux s []

/-- Decidable prefix test on lists. -/
def startsList [DecidableEq α] : List α → List α → Bool
  | [], _ => true
  | _ :: _, [] => false
  | a :: p, b :: l => decide (a = b) && startsList p l

/-- Decidable contiguous-occurrence test on lists. -/
def isChunkOf [DecidableEq α] : List α → List α → Bool
  | p, [] => p.isEmpty
  | p, a :: l => startsList p (a :: l) || isChunkOf p l

/-- Model of the FTS5 `MATCH` operator as exercised by `GetFacts`: the
submitted query string is parsed; a query that is exactly one string
literal is matched as a phrase, i.e. its token sequence must occur
consecutively among the content's tokens.  A query with leftover input
after the literal would be subject to FTS5's operator grammar; the model
gives such queries (and non-literal queries) no phrase semantics. -/
def ftsMatch (query content : Str) : Bool :=
  match ftsParsePhrase query with
  | some (phrase, rest) => rest.isEmpty && isChunkOf (tokenize phrase) (tokenize content)
  | none => false

/-! ## JSON serialization of the tags column -/

/-- One lower-case hexadecimal digit character. -/
def hexDigit (n : Nat) : Char :=
  if n < 10 then Char.ofNat (48 + n) else Char.ofNat (87 + n)

/-- Go `encoding/json` escaping of one character of a string value (with
the encoder's default HTML escaping): quote and backslash, the named
control escapes, `\u00XX` for the remaining control characters,
`\u003c`, `\u003e`, `\u0026` for the HTML-escaped characters, and
`\u2028`, `\u2029` for the Unicode line separators. -/
def jsonEscapeChar (c : Char) : Str :=
  if c = '"' then ['\\', '"']
  else if c = '\\' then ['\\', '\\']
  else if c = '\n' then ['\\', 'n']
  else if c = '\r' then ['\\', 'r']
  else if c = '\t' then ['\\', 't']
  else if c.toNat < 32 then
    ['\\', 'u', '0', '0', hexDigit (c.toNat / 16), hexDigit (c.toNat % 16)]
  else if c = '<' then ['\\', 'u', '0', '0', '3', 'c']
  else if c = '>' then ['\\', 'u', '0', '0', '3', 'e']
  else if c = '&' then ['\\', 'u', '0', '0', '2', '6']
  else if c.toNat = 8232 then ['\\', 'u', '2', '0', '2', '8']
  else if c.toNat = 8233 then ['\\', 'u', '2', '0', '2', '9']
  else [c]

/-- Go `encoding/json` escaping of a whole string value. -/
def jsonEscape (s : Str) : Str := (s.map jsonEscapeChar).flatten

/-- One marshalled array element: the escaped tag wrapped in quotes. -/
def quotedTag (t : Str) : Str := '"' :: jsonEscape t ++ ['"']

/-- The comma-separated body of the marshalled array. -/
def tagsBody : List Str → Str
  | [] => []
  | [t] => quotedTag t
  | t :: t2 :: rest => quotedTag t ++ ',' :: tagsBody (t2 :: rest)

/-- `json.Marshal` of a string slice, exactly as `AddFact` writes it into
the single `tags` column: `["t1","t2",...]` (and `[]` for no tags). -/
def serializeTags (tags : List Str) : Str :=
  '[' :: tagsBody tags ++ [']']

/-! ## JSON parsing of the tags column (the read path) -/

/-- JSON whitespace. -/
def jsonWS (c : Char) : Bool := c = ' ' || c = '\t' || c = '\n' || c = '\r'

/-- Drop leading JSON whitespace. -/
def skipWS : Str → Str
  | [] => []
  | c :: cs => if jsonWS c then skipWS cs else c :: cs

/-- Value of one hexadecimal digit character. -/
def hexVal (c : Char) : Option Nat :=
  if '0' ≤ c ∧ c ≤ '9' then some (c.toNat - 48)
  else if 'a' ≤ c ∧ c ≤ 'f' then some (c.toNat - 87)
  else if 'A' ≤ c ∧ c ≤ 'F' then some (c.toNat - 55)
  else none

/-- Scan the body of a JSON string literal after its opening quote,
decoding escapes.  Returns the decoded content and the rest of the
input. -/
def scanJsonString : Str → Option (Str × Str)
  | [] => none
  | c :: cs =>
    if c = '"' then some ([], cs)
    else if c = '\\' then
      match cs with
      | [] => none
      | e :: cs2 =>
        if e = '"' then (scanJsonString cs2).map (fun p => ('"' :: p.1, p.2))
        else if e = '\\' then (scanJsonString cs2).map (fun p => ('\\' :: p.1, p.2))
        else if e = '/' then (scanJsonString cs2).map (fun p => ('/' :: p.1, p.2))
        else if e = 'n' then (scanJsonString cs2).map (fun p => ('\n' :: p.1, p.2))
        else if e = 'r' then (scanJsonString cs2).map (fun p => ('\r' :: p.1, p.2))
        else if e = 't' then (scanJsonString cs2).map (fun p => ('\t' :: p.1, p.2))
        else if e = 'b' then (scanJsonString cs2).map (fun p => (Char.ofNat 8 :: p.1, p.2))
        else if e = 'f' then (scanJsonString cs2).map (fun p => (Char.ofNat 12 :: p.1, p.2))
        else if e = 'u' then
          match cs2 with
          | h1 :: h2 :: h3 :: h4 :: cs3 =>
            match hexVal h1, hexVal h2, hexVal h3, hexVal h4 with
            | some a, some b, some c3, some d =>
              (scanJsonString cs3).map
                (fun p => (Char.ofNat (a * 4096 + b * 256 + c3 * 16 + d) :: p.1, p.2))
            | _, _, _, _ => none
          | _ => none
        else none
    else (scanJsonString cs).map (fun p => (c :: p.1, p.2))

/-- Parse the continuation of a JSON string array after a complete
element: separators and further elements up to the closing bracket.
Fuel-bounded; the wrapper supplies enough fuel for any input. -/
def parseElemsAfter : Nat → List Str → Str → Option (List Str × Str)
  | 0, _, _ => none
  | fuel + 1, acc, s =>
    match skipWS s with
    | [] => none
    | c :: cs =>
      if c = ']' then some (acc.reverse, cs)
      else if c = ',' then
        match skipWS cs with
        | [] => none
        | c2 :: cs2 =>
          if c2 = '"' then
            match scanJsonString cs2 with
            | some (t, r) => parseElemsAfter fuel (t :: acc) r
            | none => none
          else none
      else none

/-- `json.Unmarshal` of the `tags` column into a string slice: a JSON
array of string literals (or JSON `null`, which Go decodes into a nil
slice without error).  Any other document fails, which the read path of
the store swallows by substituting an empty tag list. -/
def parseJsonStringArray (s : Str) : Option (List Str) :=
  match skipWS s with
  | [] => none
  | c :: cs =>
    if c = 'n' then
      if startsList ['u', 'l', 'l'] cs && (skipWS (cs.drop 3)).isEmpty then some [] else none
    else if c = '[' then
      match skipWS cs with
      | [] => none
      | c2 :: cs2 =>
        if c2 = ']' then
          if (skipWS cs2).isEmpty then some [] else none
        else if c2 = '"' then
          match scanJsonString cs2 with
          | some (t, r) =>
            match parseElemsAfter (r.length + 1) [t] r with
            | some (l, rest) => if (skipWS rest).isEmpty then some l else none
            | none => none
          | none => none
        else none
    else none

/-! ## The SQLite LIKE operator and the tag filter -/

/-- SQLite `LIKE`: `%` matches any run of characters, `_` matches exactly
one character, and every other pattern character matches the corresponding
text character ASCII case-insensitively (SQLite's default). -/
def likeMatch : Str → Str → Bool
  | [], [] => true
  | [], _ :: _ => false
  | p :: ps, s =>
    if p = '%' then
      likeMatch ps s ||
        (match s with
         | [] => false
         | _ :: s2 => likeMatch (p :: ps) s2)
    else
      match s with
      | [] => false
      | c :: s2 => if p = '_' then likeMatch ps s2 else decide (lc p = lc c) && likeMatch ps s2
termination_by p s => p.length + s.length

/-- The `LIKE` pattern `GetFacts` builds for one filter tag: the tag with
its quotes doubled, wrapped in quotes, wrapped in `%`. -/
def tagPattern (tag : Str) : Str :=
  '%' :: '"' :: escQuote tag ++ ['"', '%']

/-- The tag conditions of `GetFacts`, joined by `AND`: every filter tag's
pattern must match the serialized tags column. -/
def tagFilter (tags : List Str) (column : Str) : Bool :=
  tags.all (fun t => likeMatch (tagPattern t) column)

/-- Characters for which the tag round trip is exact: printable ASCII that
is not a quote, a backslash, a `LIKE` wildcard, a comma, or one of the
characters the JSON encoder escapes. -/
def safeChar (c : Char) : Bool :=
  32 ≤ c.toNat && c.toNat ≤ 126 &&
    !(c.toNat = 34 || c.toNat = 92 || c.toNat = 37 || c.toNat = 95 || c.toNat = 44 ||
      c.toNat = 60 || c.toNat = 62 || c.toNat = 38)

/-- A tag made only of safe characters. -/
def safeTag (t : Str) : Bool := t.all safeChar

/-- Helper for `splitQ`: prepend a character to the first segment. -/
def consHead (c : Char) : List Str → List Str
  | [] => [[c]]
  | s :: ss => (c :: s) :: ss

/-- Split a string at every double-quote character, yielding the
quote-delimited segments (used to analyse occurrences of `LIKE` patterns
inside a serialized tag column). -/
def splitQ : Str → List Str
  | [] => [[]]
  | c :: cs => if c = '"' then [] :: splitQ cs else consHead c (splitQ cs)

/-- Rebuild a string from its quote-delimited segments (the inverse of
`splitQ`). -/
def joinQ : List Str → Str
  | [] => []
  | [s0] => s0
  | s0 :: s1 :: ss => s0 ++ '"' :: joinQ (s1 :: ss)

/-- The interior quote-delimited segments of a serialized tag column:
tags alternating with the comma separators. -/
def midTags : List Str → List Str
  | [] => []
  | [t] => [t]
  | t :: t2 :: rest => t :: [','] :: midTags (t2 :: rest)

/-! ## The store: rows and operations (internal/store/sqlite.go) -/

/-- A row of the `facts` table; `tags` is the single serialized JSON
column. -/
structure FactRow where
  id : Nat
  content : Str
  tags : Str
  sourceDir : Str
  createdAt : Int
  updatedAt : Int
deriving DecidableEq

/-- A `Fact` as returned to callers: the tags decoded from the column. -/
structure Fact where
  id : Nat
  content : Str
  tags : List Str
  sourceDir : Str
  createdAt : Int
  updatedAt : Int
deriving DecidableEq

/-- A row of the `instances` table. -/
structure Instance where
  id : Str
  pid : Nat
  directory : Str
  startedAt : Int
  lastHeartbeat : Int
deriving DecidableEq

/-- A row of the `messages` table; `readAt` absent means unread. -/
structure Message where
  id : Nat
  fromInstance : Str
  toInstance : Str
  content : Str
  createdAt : Int
  readAt : Option Int
deriving DecidableEq

/-- The database file: the three tables and the AUTOINCREMENT counters. -/
structure DB where
  facts : List FactRow
  nextFactId : Nat
  instances : List Instance
  messages : List Message
  nextMsgId : Nat
deriving DecidableEq

/-- Row scan of the facts read path: decode the tags column, substituting
an empty tag list when it is corrupted (the `json.Unmarshal` error is
swallowed by `GetFacts` and `GetFactByID`). -/
def scanFact (r : FactRow) : Fact :=
  { id := r.id, content := r.content,
    tags := match parseJsonStringArray r.tags with
            | some l => l
            | none => [],
    sourceDir := r.sourceDir, createdAt := r.createdAt, updatedAt := r.updatedAt }

/-- The WHERE clause of `GetFacts`: the FTS `MATCH` condition when the
query is non-empty (submitting `sanitizeFTSQuery query` as the bound
argument), the exact source-directory condition when non-empty, and one
`LIKE` condition per filter tag. -/
def factWhere (query : Str) (tags : List Str) (sourceDir : Str) (r : FactRow) : Bool :=
  (query.isEmpty || ftsMatch (sanitizeFTSQuery query) r.content) &&
  (sourceDir.isEmpty || decide (r.sourceDir = sourceDir)) &&
  tagFilter tags r.tags

/-- Insert a row into a list ordered by `updatedAt` descending. -/
def insertDesc (r : FactRow) : List FactRow → List FactRow
  | [] => [r]
  | x :: xs => if x.updatedAt < r.updatedAt then r :: x :: xs else x :: insertDesc r xs

/-- `ORDER BY f.updated_at DESC`. -/
def sortByUpdatedDesc : List FactRow → List FactRow
  | [] => []
  | r :: rs => insertDesc r (sortByUpdatedDesc rs)

/-- Limits for query bounds (sqlite.go). -/
def MaxLimit : Nat := 1000

/-- Default row bound when no positive limit is supplied (sqlite.go). -/
def DefaultLimit : Nat := 100

/-- The limit clamping of `GetFacts`: a non-positive limit becomes
`DefaultLimit`; a limit above `MaxLimit` becomes `MaxLimit`. -/
def clampLimit (limit : Int) : Nat :=
  if limit ≤ 0 then DefaultLimit
  else if (MaxLimit : Int) < limit then MaxLimit
  else limit.toNat

/-- `GetFacts`: filter by the WHERE clause, order by last-update time
descending, apply the clamped LIMIT, and scan each returned row. -/
def GetFacts (db : List FactRow) (query : Str) (tags : List Str) (sourceDir : Str)
    (limit : Int) : List Fact :=
  ((sortByUpdatedDesc (db.filter (factWhere query tags sourceDir))).take
    (clampLimit limit)).map scanFact

/-- `GetFactByID`: the row with the id (scanned); absent otherwise. -/
def GetFactByID (db : List FactRow) (id : Nat) : Option Fact :=
  (db.find? (fun r => r.id == id)).map scanFact

/-- `AddFact`: serialize the tags (a nil slice defaults to the empty
list), insert the row with both timestamps set to now, and return the
populated `Fact`. -/
def AddFact (db : DB) (content : Str) (tags : List Str) (sourceDir : Str) (now : Int) :
    Fact × DB :=
  let row : FactRow :=
    { id := db.nextFactId, content := content, tags := serializeTags tags,
      sourceDir := sourceDir, createdAt := now, updatedAt := now }
  ({ id := row.id, content := content, tags := tags, sourceDir := sourceDir,
     createdAt := now, updatedAt := now },
   { db with facts := db.facts ++ [row], nextFactId := db.nextFactId + 1 })

/-- `RegisterInstance`: INSERT OR REPLACE — any row with the id is
replaced by a fresh row with both timestamps reset to now. -/
def RegisterInstance (db : DB) (id : Str) (pid : Nat) (directory : Str) (now : Int) : DB :=
  { db with instances :=
      db.instances.filter (fun i => !(i.id == id)) ++
        [{ id := id, pid := pid, directory := directory,
           startedAt := now, lastHeartbeat := now }] }

/-- `GetInstance`: the row with the id; absent (not an error) otherwise. -/
def GetInstance (db : DB) (id : Str) : Option Instance :=
  db.instances.find? (fun i => i.id == id)

/-- The DELETE of `CleanupStaleInstances` over the instances table: every
row whose last heartbeat is strictly before `now - maxAge` is removed. -/
def cleanupStale (instances : List Instance) (maxAge now : Int) : List Instance :=
  instances.filter (fun i => !decide (i.lastHeartbeat < now - maxAge))

/-- `CleanupStaleInstances(maxAge)`. -/
def CleanupStaleInstances (db : DB) (maxAge now : Int) : DB :=
  { db with instances := cleanupStale db.instances maxAge now }

/-- `SendMessage`: insert a message with creation time now and no read
timestamp. -/
def SendMessage (db : DB) (fromI toI content : Str) (now : Int) : Message × DB :=
  let m : Message := { id := db.nextMsgId, fromInstance := fromI, toInstance := toI,
                       content := content, createdAt := now, readAt := none }
  (m, { db with messages := db.messages ++ [m], nextMsgId := db.nextMsgId + 1 })

/-- `GetMessages`: the rows addressed to the instance, restricted to
unread rows when `unreadOnly`; rows are stored in creation order, so
`ORDER BY created_at ASC` is the stored order. -/
def GetMessages (db : DB) (toInstance : Str) (unreadOnly : Bool) : List Message :=
  db.messages.filter (fun m => m.toInstance == toInstance && (!unreadOnly || m.readAt.isNone))

/-- `MarkMessageRead`: set the read timestamp of every row with the id to
now (the UPDATE touches all matching rows; ids are unique in practice). -/
def MarkMessageRead (db : DB) (id : Nat) (now : Int) : DB :=
  let ms := db.messages.map (fun m => if m.id == id then { m with readAt := some now } else m)
  { db with messages := ms }

/-! ## The MCP layer (internal/mcp) -/

/-- A decoded JSON value inside a tool-call argument map
(`map[string]interface{}`). -/
inductive JVal where
  | jstr : Str → JVal
  | jnum : Int → JVal
  | jbool : Bool → JVal
  | jarr : List JVal → JVal
  | jnull : JVal

mutual

/-- Decidable equality for `JVal` (the derive handler does not support the
nested list of the `jarr` constructor). -/
def JVal.decEq : (a b : JVal) → Decidable (a = b)
  | JVal.jstr x, JVal.jstr y => decidable_of_iff (x = y) (by simp)
  | JVal.jnum x, JVal.jnum y => decidable_of_iff (x = y) (by simp)
  | JVal.jbool x, JVal.jbool y => decidable_of_iff (x = y) (by simp)
  | JVal.jarr xs, JVal.jarr ys =>
    match JVal.decEqList xs ys with
    | isTrue h => isTrue (by rw [h])
    | isFalse h => isFalse (by simp [h])
  | JVal.jnull, JVal.jnull => isTrue rfl
  | JVal.jstr _, JVal.jnum _ => isFalse (by simp)
  | JVal.jstr _, JVal.jbool _ => isFalse (by simp)
  | JVal.jstr _, JVal.jarr _ => isFalse (by simp)
  | JVal.jstr _, JVal.jnull => isFalse (by simp)
  | JVal.jnum _, JVal.jstr _ => isFalse (by simp)
  | JVal.jnum _, JVal.jbool _ => isFalse (by simp)
  | JVal.jnum _, JVal.jarr _ => isFalse (by simp)
  | JVal.jnum _, JVal.jnull => isFalse (by simp)
  | JVal.jbool _, JVal.jstr _ => isFalse (by simp)
  | JVal.jbool _, JVal.jnum _ => isFalse (by simp)
  | JVal.jbool _, JVal.jarr _ => isFalse (by simp)
  | JVal.jbool _, JVal.jnull => isFalse (by simp)
  | JVal.jarr _, JVal.jstr _ => isFalse (by simp)
  | JVal.jarr _, JVal.jnum _ => isFalse (by simp)
  | JVal.jarr _, JVal.jbool _ => isFalse (by simp)
  | JVal.jarr _, JVal.jnull => isFalse (by simp)
  | JVal.jnull, JVal.jstr _ => isFalse (by simp)
  | JVal.jnull, JVal.jnum _ => isFalse (by simp)
  | JVal.jnull, JVal.jbool _ => isFalse (by simp)
  | JVal.jnull, JVal.jarr _ => isFalse (by simp)

/-- Decidable equality for lists of `JVal`. -/
def JVal.decEqList : (xs ys : List JVal) → Decidable (xs = ys)
  | [], [] => isTrue rfl
  | [], _ :: _ => isFalse (by simp)
  | _ :: _, [] => isFalse (by simp)
  | x :: xs, y :: ys =>
    match JVal.decEq x y, JVal.decEqList xs ys with
    | isTrue h1, isTrue h2 => isTrue (by rw [h1, h2])
    | isFalse h1, _ => isFalse (by simp [h1])
    | _, isFalse h2 => isFalse (by simp [h2])

end

instance : DecidableEq JVal := JVal.decEq

/-- An argument map; lookup returns the first binding. -/
abbrev Args := List (Str × JVal)

/-- Lookup of one argument. -/
def lookupArg (args : Args) (key : Str) : Option JVal :=
  (args.find? (fun kv => kv.1 == key)).map (fun kv => kv.2)

/-- A tool result: `textResult` and `errorResult` always produce a single
text content block, modelled as the text plus the error flag. -/
structure ToolResult where
  text : Str
  isError : Bool
deriving DecidableEq

/-- `textResult`. -/
def textResult (t : Str) : ToolResult := { text := t, isError := false }

/-- `errorResult`. -/
def errorResult (t : Str) : ToolResult := { text := t, isError := true }

/-- Server state: the shared database plus this server's identity. -/
structure Server where
  db : DB
  instanceID : Str
  workDir : Str
deriving DecidableEq

/-- Modelled from the spec: the configured maximum size of a fact's
content (the constant is referenced by the repository's tests but its
defining declaration is not among the provided sources; the spec leaves
the exact value open, so a representative value is fixed — no theorem
depends on the number). -/
def MaxFactSize : Nat := 10000

/-- Modelled from the spec: the configured maximum number of tags on a
fact (see `MaxFactSize` for provenance). -/
def MaxTagCount : Nat := 20

/-- Modelled from the spec: the configured maximum length of one tag (see
`MaxFactSize` for provenance). -/
def MaxTagLength : Nat := 100

/-- Modelled from the spec: the configured maximum size of a message's
content (see `MaxFactSize` for provenance). -/
def MaxMessageSize : Nat := 10000

/-- `truncate` (tools.go). -/
def truncate (s : Str) (maxLen : Nat) : Str :=
  if s.length ≤ maxLen then s else s.take (maxLen - 3) ++ ['.', '.', '.']

/-- Decimal rendering of a number. -/
def natStr (n : Nat) : Str := Nat.toDigits 10 n

/-- The element type assertion of the tag extraction loop: an array
element contributes a tag exactly when it is a string. -/
def tagOfJVal : JVal → Option Str
  | JVal.jstr s => some s
  | _ => none

/-- Whether an array element is a string (the successful case of the
element type assertion). -/
def isStrJVal : JVal → Bool
  | JVal.jstr _ => true
  | _ => false

/-- The tag extraction shared by `toolRemember` and `toolRecall`: a tags
argument that is an array contributes its string elements in order (every
other element is skipped by the type assertion); a tags argument of any
other shape leaves the tag list empty. -/
def extractTags (args : Args) : List Str :=
  match lookupArg args "tags".data with
  | some (JVal.jarr xs) => xs.filterMap tagOfJVal
  | _ => []

/-- `toolRemember`: require a non-empty `fact` argument; reject oversized
content, too many tags, or an oversized tag (the three bound checks are
modelled from the spec — the size-validation code is referenced by the
repository's tests but absent from the provided sources); then store the
fact. -/
def toolRemember (s : Server) (args : Args) (now : Int) : ToolResult × Server :=
  match lookupArg args "fact".data with
  | some (JVal.jstr fact) =>
    if fact.isEmpty then (errorResult "fact is required".data, s)
    else if MaxFactSize < fact.length then
      (errorResult "fact exceeds maximum size".data, s)
    else
      let tags := extractTags args
      if MaxTagCount < tags.length then (errorResult "too many tags".data, s)
      else if tags.any (fun t => MaxTagLength < t.length) then
        (errorResult "tag exceeds maximum length".data, s)
      else
        let (stored, db2) := AddFact s.db fact tags s.workDir now
        (textResult ("Stored fact #".data ++ natStr stored.id ++ ": ".data ++ truncate fact 100),
         { s with db := db2 })
  | _ => (errorResult "fact is required".data, s)

/-- `toolRecall`: optional query / tags / current_dir_only / limit
arguments, defaulting to no query, no tags, all directories and limit 20;
list the matching facts (the rendering elides the per-fact timestamp
formatting of the original and keeps the contents). -/
def toolRecall (s : Server) (args : Args) : ToolResult × Server :=
  let query := match lookupArg args "query".data with
               | some (JVal.jstr q) => q
               | _ => []
  let tags := extractTags args
  let sourceDir := match lookupArg args "current_dir_only".data with
                   | some (JVal.jbool true) => s.workDir
                   | _ => []
  let limit : Int := match lookupArg args "limit".data with
                     | some (JVal.jnum l) => l
                     | _ => 20
  let facts := GetFacts s.db.facts query tags sourceDir limit
  if facts.isEmpty then (textResult "No facts found matching your query.".data, s)
  else
    (textResult ("Found ".data ++ natStr facts.length ++ " fact(s):".data ++
      (facts.map (fun f => f.content)).flatten), s)

/-- `toolGetContext`: local facts (bounded to 50) plus recent global facts
(bounded to 20) with the local ids subtracted; rendering simplified to the
contents. -/
def toolGetContext (s : Server) : ToolResult × Server :=
  let localFacts := GetFacts s.db.facts [] [] s.workDir 50
  let globalFacts := GetFacts s.db.facts [] [] [] 20
  let localIds := localFacts.map (fun f => f.id)
  let otherFacts := globalFacts.filter (fun f => !(localIds.contains f.id))
  if localFacts.isEmpty && otherFacts.isEmpty then
    (textResult "No stored context yet.".data, s)
  else
    (textResult (((localFacts ++ otherFacts).map (fun f => f.content)).flatten), s)

/-- The staleness threshold used by `toolListInstances`: five minutes, in
the seconds of the model's clock. -/
def staleThreshold : Int := 5 * 60

/-- `toolListInstances`: clean up stale instances first, then list (the
rendering keeps the ids). -/
def toolListInstances (s : Server) (now : Int) : ToolResult × Server :=
  let db2 := CleanupStaleInstances s.db staleThreshold now
  if db2.instances.isEmpty then
    (textResult "No other running instances found.".data, { s with db := db2 })
  else (textResult ((db2.instances.map (fun i => i.id)).flatten), { s with db := db2 })

/-- `toolSendMessage`: require `to` and `content`; reject oversized
content (modelled from the spec — see `MaxMessageSize`); verify that the
recipient instance currently exists before creating the message, failing
with a not-found error otherwise. -/
def toolSendMessage (s : Server) (args : Args) (now : Int) : ToolResult × Server :=
  match lookupArg args "to".data with
  | some (JVal.jstr toI) =>
    if toI.isEmpty then (errorResult "to instance ID is required".data, s)
    else
      match lookupArg args "content".data with
      | some (JVal.jstr content) =>
        if content.isEmpty then (errorResult "content is required".data, s)
        else if MaxMessageSize < content.length then
          (errorResult "message exceeds maximum size".data, s)
        else
          match GetInstance s.db toI with
          | none => (errorResult ("instance ".data ++ toI ++ " not found".data), s)
          | some _ =>
            let (msg, db2) := SendMessage s.db s.instanceID toI content now
            (textResult ("Message #".data ++ natStr msg.id ++ " sent to ".data ++ toI),
             { s with db := db2 })
      | _ => (errorResult "content is required".data, s)
  | _ => (errorResult "to instance ID is required".data, s)

/-- The unread-only flag of `toolGetMessages`: true unless the argument is
present as a boolean. -/
def unreadOnlyArg (args : Args) : Bool :=
  match lookupArg args "unread_only".data with
  | some (JVal.jbool b) => b
  | _ => true

/-- `toolGetMessages`: fetch the messages addressed to this instance
(unread-only by default) and mark every returned message that has no read
timestamp as read. -/
def toolGetMessages (s : Server) (args : Args) (now : Int) : ToolResult × Server :=
  let unreadOnly := unreadOnlyArg args
  let messages := GetMessages s.db s.instanceID unreadOnly
  if messages.isEmpty then
    (textResult (if unreadOnly then "No unread messages.".data else "No messages.".data), s)
  else
    let db2 := messages.foldl
      (fun db m => if m.readAt.isNone then MarkMessageRead db m.id now else db) s.db
    (textResult ((messages.map (fun m => m.content)).flatten), { s with db := db2 })

/-! ## The protocol engine (Server.Run / handleRequest) -/

/-- The decode outcome of a request's `params` field, as consumed by the
tools/call handler (the only handler that decodes its params). -/
inductive ParamsVal where
  | absent
  | invalid
  | toolCall (name : Str) (args : Args)
deriving DecidableEq

/-- A decoded JSON-RPC request envelope. -/
structure Request where
  id : Option JVal
  method : Str
  params : ParamsVal
deriving DecidableEq

/-- The payloads of successful responses (their precise JSON shapes carry
no claim-relevant structure). -/
inductive Payload where
  | initializeResult
  | emptyResult
  | toolsList
  | toolResultPayload (r : ToolResult)
deriving DecidableEq

/-- An outgoing response envelope. -/
inductive OutMsg where
  | result (id : Option JVal) (p : Payload)
  | rpcError (id : Option JVal) (code : Int) (message : Str)
deriving DecidableEq

/-- `handleToolCall`: params that fail to decode produce the
invalid-params protocol error; otherwise route by tool name — an unknown
tool yields an error tool result, not a protocol error. -/
def handleToolCall (s : Server) (req : Request) (now : Int) : List OutMsg × Server :=
  match req.params with
  | ParamsVal.toolCall name args =>
    let rs :=
      if name == "remember".data then toolRemember s args now
      else if name == "recall".data then toolRecall s args
      else if name == "get_context".data then toolGetContext s
      else if name == "list_instances".data then toolListInstances s now
      else if name == "send_message".data then toolSendMessage s args now
      else if name == "get_messages".data then toolGetMessages s args now
      else (errorResult ("Unknown tool: ".data ++ name), s)
    ([OutMsg.result req.id (Payload.toolResultPayload rs.1)], rs.2)
  | _ => ([OutMsg.rpcError req.id (-32602) "Invalid params".data], s)

/-- `handleRequest`: route by method name; `initialized` sends no
response; an unknown method produces the method-not-found error
response. -/
def handleRequest (s : Server) (req : Request) (now : Int) : List OutMsg × Server :=
  if req.method == "initialize".data then
    ([OutMsg.result req.id Payload.initializeResult], s)
  else if req.method == "initialized".data then ([], s)
  else if req.method == "tools/list".data then ([OutMsg.result req.id Payload.toolsList], s)
  else if req.method == "tools/call".data then handleToolCall s req now
  else if req.method == "ping".data then ([OutMsg.result req.id Payload.emptyResult], s)
  else ([OutMsg.rpcError req.id (-32601) "Method not found".data], s)

/-- One line read from the input: either it decodes as a request envelope
or it does not. -/
inductive InLine where
  | malformed
  | request (req : Request)
deriving DecidableEq

/-- How the input ends after its lines: end-of-input, or a read failure. -/
inductive InputEnd where
  | eof
  | readFailure (msg : Str)
deriving DecidableEq

/-- `Server.Run`: read one line at a time; a line that does not decode as
a request envelope produces a parse-error response and the loop continues;
end-of-input terminates cleanly; any other read failure is propagated
(wrapped).  Returns the emitted responses, the final state, and the
loop's outcome. -/
def serverRun (s : Server) (now : Int) :
    List InLine → InputEnd → List OutMsg × Server × Except Str Unit
  | [], InputEnd.eof => ([], s, Except.ok ())
  | [], InputEnd.readFailure e => ([], s, Except.error ("read error: ".data ++ e))
  | InLine.malformed :: rest, fin =>
    let out := serverRun s now rest fin
    (OutMsg.rpcError none (-32700) "Parse error".data :: out.1, out.2)
  | InLine.request req :: rest, fin =>
    let h := handleRequest s req now
    let out := serverRun h.2 now rest fin
    (h.1 ++ out.1, out.2)

/-! ## Fixtures for the closed witnesses -/

/-- An empty database. -/
def emptyDB : DB :=
  { facts := [], nextFactId := 1, instances := [], messages := [], nextMsgId := 1 }

/-- A server over the empty database. -/
def testServer : Server :=
  { db := emptyDB, instanceID := "me".data, workDir := "/w".data }

/-- A database holding one unread message addressed to `me`. -/
def msg0 : Message :=
  { id := 1, fromInstance := "you".data, toInstance := "me".data,
    content := "hi".data, createdAt := 0, readAt := none }

/-- A server (instance `me`) whose mailbox holds exactly `msg0`. -/
def msgServer : Server :=
  { db := { facts := [], nextFactId := 1, instances := [], messages := [msg0],
            nextMsgId := 2 },
    instanceID := "me".data, workDir := "/w".data }

/-- A trivial fact row matched by empty filters. -/
def row0 : FactRow :=
  { id := 0, content := [], tags := "[]".data, sourceDir := [],
    createdAt := 0, updatedAt := 0 }

/-- A row whose tag column holds the non-JSON text `oops`. -/
def badRow : FactRow :=
  { id := 7, content := "c".data, tags := "oops".data, sourceDir := "/d".data,
    createdAt := 0, updatedAt := 0 }

/-- A row whose content holds `OR` as a literal word. -/
def rowQ : FactRow :=
  { id := 1, content := "a OR b".data, tags := "[]".data, sourceDir := [],
    createdAt := 0, updatedAt := 0 }

/-- A tag containing a double quote. -/
def c3Tag : Str := ['a', '"', 'b']

/-- A row stored with the quoted tag. -/
def c3Row : FactRow :=
  { id := 1, content := "x".data, tags := serializeTags [c3Tag], sourceDir := [],
    createdAt := 0, updatedAt := 0 }

/-- A row stored with the plain tag `arch`. -/
def c3SafeRow : FactRow :=
  { id := 1, content := "x".data, tags := serializeTags ["arch".data], sourceDir := [],
    createdAt := 0, updatedAt := 0 }

/-! ## C7: stale-instance cleanup -/

/-- C7: `cleanupStaleInstances(maxAge)` deletes exactly the instances
whose last heartbeat is older than `now - maxAge` (strictly), and leaves
every instance with a fresher heartbeat unchanged: the surviving rows are
precisely the original rows whose heartbeat is at least `now - maxAge`,
kept intact and in order. -/
theorem CleanupStaleInstances_exact (db : DB) (maxAge now : Int) (i : Instance) :
    (i ∈ (CleanupStaleInstances db maxAge now).instances ↔
      i ∈ db.instances ∧ now - maxAge ≤ i.lastHeartbeat) ∧
    (CleanupStaleInstances db maxAge now).instances.Sublist db.instances := by
  constructor
  · simp [CleanupStaleInstances, cleanupStale, List.mem_filter, not_lt]
  · exact List.filter_sublist _

/-! ## C8: the request loop -/

/-- The loop returns no error after any sequence of lines when the input
ends with EOF. -/
theorem serverRun_eof (now : Int) :
    ∀ (lines : List InLine) (s : Server),
      (serverRun s now lines InputEnd.eof).2.2 = Except.ok () := by
  intro lines
  induction lines with
  | nil => intro s; rfl
  | cons l rest ih =>
    intro s
    cases l with
    | malformed => simpa [serverRun] using ih s
    | request req => simpa [serverRun] using ih (handleRequest s req now).2

/-- The loop propagates a read failure (wrapped) after any sequence of
lines. -/
theorem serverRun_readFailure (now : Int) (e : Str) :
    ∀ (lines : List InLine) (s : Server),
      (serverRun s now lines (InputEnd.readFailure e)).2.2 =
        Except.error ("read error: ".data ++ e) := by
  intro lines
  induction lines with
  | nil => intro s; rfl
  | cons l rest ih =>
    intro s
    cases l with
    | malformed => simpa [serverRun] using ih s
    | request req => simpa [serverRun] using ih (handleRequest s req now).2

/-- C8: a line that does not decode as a request envelope produces a
parse-error response (code -32700) without terminating the loop or
touching the state; end-of-input terminates the loop cleanly; any other
read error is propagated; a decoded request with an unknown method
produces a method-not-found response (code -32601) and the loop
continues. -/
theorem serverRun_loopBehavior (s : Server) (now : Int) :
    (∀ lines, (serverRun s now lines InputEnd.eof).2.2 = Except.ok ()) ∧
    (∀ lines e, (serverRun s now lines (InputEnd.readFailure e)).2.2 =
       Except.error ("read error: ".data ++ e)) ∧
    (∀ rest fin, serverRun s now (InLine.malformed :: rest) fin =
       (OutMsg.rpcError none (-32700) "Parse error".data :: (serverRun s now rest fin).1,
        (serverRun s now rest fin).2)) ∧
    (∀ req rest fin,
       req.method ∉ ["initialize".data, "initialized".data, "tools/list".data,
         "tools/call".data, "ping".data] →
       serverRun s now (InLine.request req :: rest) fin =
         (OutMsg.rpcError req.id (-32601) "Method not found".data ::
            (serverRun s now rest fin).1,
          (serverRun s now rest fin).2)) := by
  refine ⟨fun lines => serverRun_eof now lines s,
          fun lines e => serverRun_readFailure now e lines s,
          fun rest fin => rfl,
          fun req rest fin h => ?_⟩
  simp only [List.mem_cons, List.not_mem_nil, or_false, not_or] at h
  obtain ⟨h1, h2, h3, h4, h5⟩ := h
  have e1 : (req.method == "initialize".data) = false := beq_eq_false_iff_ne.mpr h1
  have e2 : (req.method == "initialized".data) = false := beq_eq_false_iff_ne.mpr h2
  have e3 : (req.method == "tools/list".data) = false := beq_eq_false_iff_ne.mpr h3
  have e4 : (req.method == "tools/call".data) = false := beq_eq_false_iff_ne.mpr h4
  have e5 : (req.method == "ping".data) = false := beq_eq_false_iff_ne.mpr h5
  simp [serverRun, handleRequest, e1, e2, e3, e4, e5]

/-- Witness for C8: a concrete request with the unknown method `bogus`
receives the method-not-found error, and the loop then ends cleanly. -/
theorem serverRun_loopBehavior_witness :
    serverRun testServer 0
        [InLine.request { id := none, method := "bogus".data, params := ParamsVal.absent }]
        InputEnd.eof =
      ([OutMsg.rpcError none (-32601) "Method not found".data], testServer,
        Except.ok ()) := by
  have h := (serverRun_loopBehavior testServer 0).2.2.2
      { id := none, method := "bogus".data, params := ParamsVal.absent } [] InputEnd.eof
      (by decide)
  exact h.trans rfl

/-! ## C2: oversized facts are rejected -/

/-- C2: a `remember` call whose fact content exceeds the configured
maximum size fails with a descriptive size-exceeded error result, and the
server state — in particular the facts table — is unchanged: no Fact is
created and nothing is silently truncated. -/
theorem toolRemember_oversized (s : Server) (args : Args) (fact : Str) (now : Int)
    (hf : lookupArg args "fact".data = some (JVal.jstr fact))
    (hsize : MaxFactSize < fact.length) :
    (toolRemember s args now).1.isError = true ∧
    (toolRemember s args now).1.text = "fact exceeds maximum size".data ∧
    (toolRemember s args now).2 = s := by
  have hne : fact.isEmpty = false := by
    cases fact with
    | nil => simp [MaxFactSize] at hsize
    | cons c cs => rfl
  simp [toolRemember, hf, hne, hsize, errorResult]

/-- Witness for C2: a concrete fact one character above the bound is
rejected and the empty store stays empty. -/
theorem toolRemember_oversized_witness :
    (toolRemember testServer
        [("fact".data, JVal.jstr (List.replicate (MaxFactSize + 1) 'x'))] 0).1.isError
      = true ∧
    (toolRemember testServer
        [("fact".data, JVal.jstr (List.replicate (MaxFactSize + 1) 'x'))] 0).2
      = testServer := by
  have h := toolRemember_oversized testServer
      [("fact".data, JVal.jstr (List.replicate (MaxFactSize + 1) 'x'))]
      (List.replicate (MaxFactSize + 1) 'x') 0 rfl
      (by rw [List.length_replicate]; omega)
  exact ⟨h.1, h.2.2⟩

/-! ## C4: send_message checks the recipient first -/

/-- C4: when the recipient instance id is not registered, an otherwise
valid `send_message` call fails with a not-found error result, and the
server state — in particular the messages table — is unchanged: no Message
is created. -/
theorem toolSendMessage_notFound (s : Server) (args : Args) (toI content : Str)
    (now : Int)
    (hto : lookupArg args "to".data = some (JVal.jstr toI))
    (hc : lookupArg args "content".data = some (JVal.jstr content))
    (htoNe : toI.isEmpty = false)
    (hcNe : content.isEmpty = false)
    (hsz : content.length ≤ MaxMessageSize)
    (hmiss : GetInstance s.db toI = none) :
    (toolSendMessage s args now).1.isError = true ∧
    (toolSendMessage s args now).1.text = "instance ".data ++ toI ++ " not found".data ∧
    (toolSendMessage s args now).2 = s := by
  simp [toolSendMessage, hto, hc, htoNe, hcNe, Nat.not_lt.mpr hsz, hmiss, errorResult]

/-- Witness for C4: sending to the unregistered instance `ghost` fails
with the not-found error and creates nothing. -/
theorem toolSendMessage_notFound_witness :
    (toolSendMessage testServer
        [("to".data, JVal.jstr "ghost".data), ("content".data, JVal.jstr "hi".data)]
        0).1.isError = true ∧
    (toolSendMessage testServer
        [("to".data, JVal.jstr "ghost".data), ("content".data, JVal.jstr "hi".data)]
        0).2 = testServer := by
  have h := toolSendMessage_notFound testServer
      [("to".data, JVal.jstr "ghost".data), ("content".data, JVal.jstr "hi".data)]
      "ghost".data "hi".data 0 (by decide) (by decide) (by decide) (by decide)
      (by decide) (by decide)
  exact ⟨h.1, h.2.2⟩

/-! ## C10: non-string tag elements are dropped -/

/-- Only the string elements of an array survive the extraction, so
filtering the array down to its string elements first changes nothing. -/
theorem filterMap_filter_isStr (xs : List JVal) :
    (xs.filter isStrJVal).filterMap tagOfJVal = xs.filterMap tagOfJVal := by
  induction xs with
  | nil => rfl
  | cons x rest ih => cases x <;> simp [isStrJVal, tagOfJVal, ih]

/-- Lookup on a non-empty argument map. -/
theorem lookupArg_cons (k key : Str) (v : JVal) (rest : Args) :
    lookupArg ((k, v) :: rest) key =
      if (k == key) then some v else lookupArg rest key := by
  by_cases h : (k == key) <;> simp [lookupArg, List.find?, h]

/-- Lookup on the empty argument map. -/
theorem lookupArg_nil (key : Str) : lookupArg [] key = none := rfl

/-- C10: a `tags` argument that is an array keeps exactly its string
elements (non-string elements are silently dropped, producing no
validation error), and a `tags` argument that is not an array behaves as
an absent argument — for both `remember` and `recall`. -/
theorem toolTags_nonString_dropped (s : Server) (now : Int) (fact q : Str)
    (xs : List JVal) (v : JVal) (hv : ∀ l, v ≠ JVal.jarr l) :
    (toolRemember s [("fact".data, JVal.jstr fact), ("tags".data, JVal.jarr xs)] now =
       toolRemember s [("fact".data, JVal.jstr fact),
         ("tags".data, JVal.jarr (xs.filter isStrJVal))] now) ∧
    (toolRemember s [("fact".data, JVal.jstr fact), ("tags".data, v)] now =
       toolRemember s [("fact".data, JVal.jstr fact)] now) ∧
    (toolRecall s [("query".data, JVal.jstr q), ("tags".data, JVal.jarr xs)] =
       toolRecall s [("query".data, JVal.jstr q),
         ("tags".data, JVal.jarr (xs.filter isStrJVal))]) ∧
    (toolRecall s [("query".data, JVal.jstr q), ("tags".data, v)] =
       toolRecall s [("query".data, JVal.jstr q)]) := by
  have kff : ("fact".data == "fact".data) = true := by decide
  have kft : ("fact".data == "tags".data) = false := by decide
  have ktt : ("tags".data == "tags".data) = true := by decide
  have kqq : ("query".data == "query".data) = true := by decide
  have kqt : ("query".data == "tags".data) = false := by decide
  have kqc : ("query".data == "current_dir_only".data) = false := by decide
  have ktc : ("tags".data == "current_dir_only".data) = false := by decide
  have kql : ("query".data == "limit".data) = false := by decide
  have ktl : ("tags".data == "limit".data) = false := by decide
  have kfc : ("fact".data == "current_dir_only".data) = false := by decide
  have kfl : ("fact".data == "limit".data) = false := by decide
  have eTagsArr : ∀ (k0 : Str) (v0 : JVal) (ys : List JVal), (k0 == "tags".data) = false →
      extractTags [(k0, v0), ("tags".data, JVal.jarr ys)] = ys.filterMap tagOfJVal := by
    intro k0 v0 ys hk
    simp [extractTags, lookupArg_cons, hk, ktt]
  have eTagsNone : ∀ (k0 : Str) (v0 : JVal), (k0 == "tags".data) = false →
      extractTags [(k0, v0), ("tags".data, v)] = [] := by
    intro k0 v0 hk
    cases v with
    | jarr l => exact absurd rfl (hv l)
    | jstr s2 => simp [extractTags, lookupArg_cons, hk, ktt]
    | jnum n => simp [extractTags, lookupArg_cons, hk, ktt]
    | jbool b => simp [extractTags, lookupArg_cons, hk, ktt]
    | jnull => simp [extractTags, lookupArg_cons, hk, ktt]
  have eTagsAbsent : ∀ (k0 : Str) (v0 : JVal), (k0 == "tags".data) = false →
      extractTags [(k0, v0)] = [] := by
    intro k0 v0 hk
    simp [extractTags, lookupArg_cons, hk, lookupArg]
  refine ⟨?_, ?_, ?_, ?_⟩
  · simp [toolRemember, lookupArg_cons, kff, kft, ktt,
      eTagsArr _ _ _ kft, filterMap_filter_isStr]
  · simp [toolRemember, lookupArg_cons, lookupArg_nil, kff, kft, ktt,
      eTagsNone _ _ kft, eTagsAbsent _ _ kft]
  · simp [toolRecall, lookupArg_cons, lookupArg_nil, kqq, kqt, ktt, kqc, ktc,
      kql, ktl, eTagsArr _ _ _ kqt, filterMap_filter_isStr]
  · simp [toolRecall, lookupArg_cons, lookupArg_nil, kqq, kqt, ktt, kqc, ktc,
      kql, ktl, eTagsNone _ _ kqt, eTagsAbsent _ _ kqt]

/-- Witness for C10: a tags array holding a string and a number behaves
exactly like the array holding only the string, and a numeric tags
argument behaves like no tags argument. -/
theorem toolTags_nonString_dropped_witness :
    (toolRemember testServer [("fact".data, JVal.jstr "f1".data),
        ("tags".data, JVal.jarr [JVal.jstr "a".data, JVal.jnum 3])] 0 =
      toolRemember testServer [("fact".data, JVal.jstr "f1".data),
        ("tags".data, JVal.jarr [JVal.jstr "a".data])] 0) ∧
    (toolRemember testServer [("fact".data, JVal.jstr "f1".data),
        ("tags".data, JVal.jnull)] 0 =
      toolRemember testServer [("fact".data, JVal.jstr "f1".data)] 0) := by
  have h := toolTags_nonString_dropped testServer 0 "f1".data "".data
      [JVal.jstr "a".data, JVal.jnum 3] JVal.jnull
      (fun l hl => JVal.noConfusion hl)
  exact ⟨h.1, h.2.1⟩

/-! ## C5: get_messages defaults to unread-only and marks on retrieve -/

/-- After `MarkMessageRead`, every row carrying the marked id has a read
timestamp. -/
theorem mem_MarkMessageRead_marked (db : DB) (tid : Nat) (now : Int) :
    ∀ m2 ∈ (MarkMessageRead db tid now).messages, m2.id = tid → m2.readAt ≠ none := by
  intro m2 hm2 hid
  simp only [MarkMessageRead, List.mem_map] at hm2
  obtain ⟨m, hmem, hval⟩ := hm2
  subst hval
  by_cases hb : m.id = tid
  · simp [hb]
  · simp [hb] at hid

/-- `MarkMessageRead` never clears a read timestamp: if every row with a
given id is read, this stays true after marking any id. -/
theorem MarkMessageRead_preserves (db : DB) (tid oid : Nat) (now : Int)
    (h : ∀ m ∈ db.messages, m.id = tid → m.readAt ≠ none) :
    ∀ m2 ∈ (MarkMessageRead db oid now).messages, m2.id = tid → m2.readAt ≠ none := by
  intro m2 hm2 hid
  simp only [MarkMessageRead, List.mem_map] at hm2
  obtain ⟨m, hmem, hval⟩ := hm2
  subst hval
  by_cases hb : m.id = oid
  · simp [hb]
  · simp [hb] at hid ⊢
    exact h m hmem hid

/-- The read-marking fold of `toolGetMessages` preserves the invariant
that every row with a given id is read. -/
theorem foldMark_preserves (now : Int) (tid : Nat) :
    ∀ (L : List Message) (db : DB),
      (∀ x ∈ db.messages, x.id = tid → x.readAt ≠ none) →
      ∀ x ∈ (L.foldl (fun db0 mm =>
          if mm.readAt.isNone then MarkMessageRead db0 mm.id now else db0) db).messages,
        x.id = tid → x.readAt ≠ none := by
  intro L
  induction L with
  | nil => intro db h; simpa using h
  | cons mm rest ih =>
    intro db h
    simp only [List.foldl_cons]
    by_cases hb : mm.readAt.isNone = true
    · rw [if_pos hb]
      exact ih _ (MarkMessageRead_preserves _ tid mm.id now h)
    · rw [if_neg hb]
      exact ih _ h

/-- Once the read-marking fold has processed an unread returned message,
every row carrying its id is read. -/
theorem foldMark_marks (now : Int) :
    ∀ (L : List Message) (db : DB) (m : Message), m ∈ L → m.readAt = none →
      ∀ m2 ∈ (L.foldl (fun db0 mm =>
          if mm.readAt.isNone then MarkMessageRead db0 mm.id now else db0) db).messages,
        m2.id = m.id → m2.readAt ≠ none := by
  intro L
  induction L with
  | nil => intro db m hm; exact absurd hm (List.not_mem_nil m)
  | cons mm rest ih =>
    intro db m hm hunread
    simp only [List.foldl_cons]
    rcases List.mem_cons.mp hm with heq | htail
    · subst heq
      have hb : m.readAt.isNone = true := by simp [hunread]
      rw [if_pos hb]
      exact foldMark_preserves now m.id rest _ (mem_MarkMessageRead_marked db m.id now)
    · by_cases hb : mm.readAt.isNone = true
      · rw [if_pos hb]
        exact ih _ m htail hunread
      · rw [if_neg hb]
        exact ih _ m htail hunread

/-- C5: `get_messages` defaults to unread-only when the `unread_only`
argument is absent, and every returned message whose read timestamp is
absent is marked read in the resulting state; consequently no later call
that asks for unread messages can return a message with that id again —
a message is observed unread at most once. -/
theorem toolGetMessages_readOnce (s : Server) (args : Args) (now : Int) (m : Message)
    (habs : lookupArg args "unread_only".data = none)
    (hm : m ∈ GetMessages s.db s.instanceID (unreadOnlyArg args))
    (hunread : m.readAt = none) :
    unreadOnlyArg args = true ∧
    (∀ m2 ∈ (toolGetMessages s args now).2.db.messages, m2.id = m.id → m2.readAt ≠ none) ∧
    (∀ (args2 : Args), unreadOnlyArg args2 = true →
      ∀ m3 ∈ GetMessages (toolGetMessages s args now).2.db
          (toolGetMessages s args now).2.instanceID (unreadOnlyArg args2),
        m3.id ≠ m.id) := by
  have h1 : unreadOnlyArg args = true := by simp [unreadOnlyArg, habs]
  have hne : (GetMessages s.db s.instanceID (unreadOnlyArg args)).isEmpty = false := by
    cases hL : GetMessages s.db s.instanceID (unreadOnlyArg args) with
    | nil => rw [hL] at hm; exact absurd hm (List.not_mem_nil m)
    | cons a l => rfl
  have hdb : (toolGetMessages s args now).2.db =
      (GetMessages s.db s.instanceID (unreadOnlyArg args)).foldl
        (fun db0 mm => if mm.readAt.isNone then MarkMessageRead db0 mm.id now else db0)
        s.db := by
    simp [toolGetMessages, hne]
  have h2 : ∀ m2 ∈ (toolGetMessages s args now).2.db.messages,
      m2.id = m.id → m2.readAt ≠ none := by
    rw [hdb]
    exact foldMark_marks now _ s.db m hm hunread
  refine ⟨h1, h2, ?_⟩
  intro args2 hu m3 hm3 hid
  simp only [GetMessages, List.mem_filter, hu, Bool.not_true, Bool.false_or,
    Bool.and_eq_true, beq_iff_eq, Option.isNone_iff_eq_none] at hm3
  exact h2 m3 hm3.1 hid hm3.2.2



/-- Witness for C5: with no arguments the call is unread-only, returns
`msg0`, and afterwards every row with its id is read. -/
theorem toolGetMessages_readOnce_witness :
    msg0.readAt = none ∧
    msg0 ∈ GetMessages msgServer.db msgServer.instanceID (unreadOnlyArg []) ∧
    unreadOnlyArg ([] : Args) = true ∧
    (∀ m2 ∈ (toolGetMessages msgServer [] 5).2.db.messages,
      m2.id = msg0.id → m2.readAt ≠ none) := by
  have h := toolGetMessages_readOnce msgServer [] 5 msg0 rfl (by decide) rfl
  exact ⟨rfl, by decide, h.1, h.2.1⟩

/-! ## C6: limit clamping -/

/-- Inserting into the descending-ordered list adds one element. -/
theorem length_insertDesc (r : FactRow) (l : List FactRow) :
    (insertDesc r l).length = l.length + 1 := by
  induction l with
  | nil => rfl
  | cons x xs ih => by_cases h : x.updatedAt < r.updatedAt <;> simp [insertDesc, h, ih]

/-- Ordering the rows does not change how many there are. -/
theorem length_sortByUpdatedDesc (l : List FactRow) :
    (sortByUpdatedDesc l).length = l.length := by
  induction l with
  | nil => rfl
  | cons r rs ih => simp [sortByUpdatedDesc, length_insertDesc, ih]

/-- Membership through the descending insert. -/
theorem mem_insertDesc (r x : FactRow) (l : List FactRow) :
    x ∈ insertDesc r l ↔ x = r ∨ x ∈ l := by
  induction l with
  | nil => simp [insertDesc]
  | cons y ys ih =>
    by_cases h : y.updatedAt < r.updatedAt <;> simp [insertDesc, h, ih] <;> tauto

/-- Membership through the ordering step. -/
theorem mem_sortByUpdatedDesc (x : FactRow) (l : List FactRow) :
    x ∈ sortByUpdatedDesc l ↔ x ∈ l := by
  induction l with
  | nil => simp [sortByUpdatedDesc]
  | cons r rs ih => simp [sortByUpdatedDesc, mem_insertDesc, ih]

/-- The clamped limit is always at least one row. -/
theorem clampLimit_pos (lim : Int) : 1 ≤ clampLimit lim := by
  unfold clampLimit
  split
  · norm_num [DefaultLimit]
  · split
    · norm_num [MaxLimit]
    · omega

/-- The number of returned rows is the clamped limit capped by the number
of matching rows. -/
theorem length_GetFacts (db : List FactRow) (q : Str) (tags : List Str) (dir : Str)
    (lim : Int) :
    (GetFacts db q tags dir lim).length =
      min (clampLimit lim) (db.filter (factWhere q tags dir)).length := by
  simp [GetFacts, List.length_take, length_sortByUpdatedDesc]

/-- C6: `getFacts` clamps the limit: a non-positive limit yields exactly
`DefaultLimit` (100) rows whenever at least that many rows match; a limit
above `MaxLimit` (1000) yields at most `MaxLimit` rows; an in-range limit
is used as given — the result holds exactly `min limit matching` rows. -/
theorem GetFacts_limitClamped (db : List FactRow) (q : Str) (tags : List Str)
    (dir : Str) (lim : Int) :
    (lim ≤ 0 → DefaultLimit ≤ (db.filter (factWhere q tags dir)).length →
       (GetFacts db q tags dir lim).length = DefaultLimit) ∧
    ((MaxLimit : Int) < lim → (GetFacts db q tags dir lim).length ≤ MaxLimit) ∧
    (1 ≤ lim → lim ≤ (MaxLimit : Int) →
       (GetFacts db q tags dir lim).length =
         min lim.toNat (db.filter (factWhere q tags dir)).length) := by
  refine ⟨fun h1 h2 => ?_, fun h => ?_, fun ha hb => ?_⟩
  · rw [length_GetFacts]
    have hc : clampLimit lim = DefaultLimit := by unfold clampLimit; rw [if_pos h1]
    rw [hc]
    exact Nat.min_eq_left h2
  · rw [length_GetFacts]
    have hc : clampLimit lim = MaxLimit := by
      unfold clampLimit
      rw [if_neg (by omega), if_pos h]
    rw [hc]
    exact Nat.min_le_left _ _
  · rw [length_GetFacts]
    have hc : clampLimit lim = lim.toNat := by
      unfold clampLimit
      rw [if_neg (by omega), if_neg (by omega)]
    rw [hc]



/-- Witness for C6 over a table of 101 matching rows: limit 0 returns
exactly 100 rows, limit 2000 returns at most 1000, limit 7 returns 7. -/
theorem GetFacts_limitClamped_witness :
    (GetFacts (List.replicate 101 row0) [] [] [] 0).length = DefaultLimit ∧
    (GetFacts (List.replicate 101 row0) [] [] [] 2000).length ≤ MaxLimit ∧
    (GetFacts (List.replicate 101 row0) [] [] [] 7).length = 7 := by
  have hfilter : (List.replicate 101 row0).filter (factWhere [] [] []) =
      List.replicate 101 row0 := by
    apply List.filter_eq_self.mpr
    intro a ha
    have hr : a = row0 := List.eq_of_mem_replicate ha
    subst hr
    rfl
  refine ⟨?_, ?_, ?_⟩
  · exact (GetFacts_limitClamped (List.replicate 101 row0) [] [] [] 0).1 (le_refl 0)
      (by rw [hfilter, List.length_replicate]; norm_num [DefaultLimit])
  · exact (GetFacts_limitClamped (List.replicate 101 row0) [] [] [] 2000).2.1
      (by norm_num [MaxLimit])
  · have h3 := (GetFacts_limitClamped (List.replicate 101 row0) [] [] [] 7).2.2
      (by norm_num) (by norm_num [MaxLimit])
    rw [hfilter, List.length_replicate] at h3
    rw [h3]
    rfl

/-! ## C9: corrupted tag columns degrade to an empty tag set -/

/-- C9: a stored row whose serialized tag column fails to parse as a JSON
string array is still returned by both read operations: `getFactByID`
succeeds and yields the fact with an empty tag set and its other fields
intact, and `getFacts` likewise returns it (with empty tags) rather than
failing. -/
theorem reads_degradeCorruptTags (db : List FactRow) (r : FactRow) (lim : Int)
    (hbad : parseJsonStringArray r.tags = none)
    (hfind : db.find? (fun x => x.id == r.id) = some r) :
    GetFactByID db r.id = some (scanFact r) ∧
    (scanFact r).tags = [] ∧
    (scanFact r).content = r.content ∧
    (scanFact r).id = r.id ∧
    GetFacts [r] [] [] [] lim = [scanFact r] := by
  refine ⟨?_, ?_, rfl, rfl, ?_⟩
  · simp [GetFactByID, hfind]
  · simp [scanFact, hbad]
  · have hw : factWhere [] [] [] r = true := by simp [factWhere, tagFilter]
    have hpos := clampLimit_pos lim
    obtain ⟨k, hk⟩ : ∃ k, clampLimit lim = k + 1 := ⟨clampLimit lim - 1, by omega⟩
    simp [GetFacts, hw, sortByUpdatedDesc, insertDesc, hk]



/-- Witness for C9 at the concrete corrupted row. -/
theorem reads_degradeCorruptTags_witness :
    parseJsonStringArray badRow.tags = none ∧
    GetFactByID [badRow] badRow.id = some (scanFact badRow) ∧
    (scanFact badRow).tags = [] ∧
    GetFacts [badRow] [] [] [] 3 = [scanFact badRow] := by
  have h := reads_degradeCorruptTags [badRow] badRow 3 (by decide) (by decide)
  exact ⟨by decide, h.1, h.2.1, h.2.2.2.2⟩

/-! ## C1: FTS query sanitization -/

/-- Scanning the quote-doubled body undoes the escaping and stops exactly
at the final closing quote, leaving no unconsumed input. -/
theorem scanQuoted_escQuote (q : Str) :
    scanQuoted (escQuote q ++ ['"']) = some (q, []) := by
  induction q with
  | nil => rfl
  | cons c cs ih =>
    by_cases h : c = '"'
    · subst h
      simp [escQuote, scanQuoted, ih]
    · simp only [escQuote, if_neg h, List.cons_append]
      unfold scanQuoted
      simp [h, ih]

/-- C1: the query string submitted to the FTS engine by `GetFacts` is the
query with every quote doubled, wrapped in quote delimiters; it parses as
a single string literal covering the entire input whose content is
exactly the original query — so no part of it is available to the
operator grammar — and matching it degenerates to literal phrase
containment.  Consequently every fact returned for a non-empty query
contains the query as a literal token phrase. -/
theorem sanitizeFTSQuery_literal (q : Str) :
    sanitizeFTSQuery q = '"' :: escQuote q ++ ['"'] ∧
    ftsParsePhrase (sanitizeFTSQuery q) = some (q, []) ∧
    (∀ content, ftsMatch (sanitizeFTSQuery q) content =
       isChunkOf (tokenize q) (tokenize content)) ∧
    (∀ (db : List FactRow) (tags : List Str) (dir : Str) (lim : Int) (f : Fact),
       q ≠ [] → f ∈ GetFacts db q tags dir lim →
       isChunkOf (tokenize q) (tokenize f.content) = true) := by
  have hparse : ftsParsePhrase (sanitizeFTSQuery q) = some (q, []) := by
    simp [ftsParsePhrase, sanitizeFTSQuery, scanQuoted_escQuote]
  have hmatch : ∀ content, ftsMatch (sanitizeFTSQuery q) content =
      isChunkOf (tokenize q) (tokenize content) := by
    intro content
    simp [ftsMatch, hparse]
  refine ⟨rfl, hparse, hmatch, ?_⟩
  intro db tags dir lim f hq hf
  simp only [GetFacts, List.mem_map] at hf
  obtain ⟨r, hr, hfr⟩ := hf
  have hr2 : r ∈ sortByUpdatedDesc (db.filter (factWhere q tags dir)) :=
    List.take_subset _ _ hr
  have hr3 : r ∈ db.filter (factWhere q tags dir) := (mem_sortByUpdatedDesc r _).mp hr2
  have hw : factWhere q tags dir r = true := (List.mem_filter.mp hr3).2
  have hq2 : q.isEmpty = false := by
    cases q with
    | nil => exact absurd rfl hq
    | cons a l => rfl
  simp only [factWhere, hq2, Bool.false_or, Bool.and_eq_true] at hw
  have hfts : ftsMatch (sanitizeFTSQuery q) r.content = true := hw.1.1
  rw [hmatch r.content] at hfts
  rw [← hfr]
  exact hfts



/-- Witness for C1: the non-empty query `or` retrieves the row containing
the literal word `OR`, and the content indeed contains the query as a
literal token phrase. -/
theorem sanitizeFTSQuery_literal_witness :
    ("or".data ≠ ([] : Str)) ∧
    scanFact rowQ ∈ GetFacts [rowQ] "or".data [] [] 5 ∧
    isChunkOf (tokenize "or".data) (tokenize (scanFact rowQ).content) = true := by
  refine ⟨by decide, by decide, ?_⟩
  exact (sanitizeFTSQuery_literal "or".data).2.2.2 [rowQ] [] [] 5 (scanFact rowQ)
    (by decide) (by decide)

/-! ## C3: tag filtering — character-level facts -/

/-- Characters are determined by their code points. -/
theorem char_eq_of_toNat {c d : Char} (h : c.toNat = d.toNat) : c = d :=
  Char.ext (UInt32.ext h)

/-- Characters with different code points differ. -/
theorem ne_of_code {c d : Char} (h : c.toNat ≠ d.toNat) : c ≠ d :=
  fun he => h (by rw [he])

/-- The code point of a lower-cased character. -/
theorem toNat_lc (c : Char) :
    (lc c).toNat = if 65 ≤ c.toNat ∧ c.toNat ≤ 90 then c.toNat + 32 else c.toNat := by
  by_cases h : 65 ≤ c.toNat ∧ c.toNat ≤ 90
  · simp only [lc, if_pos h]
    rw [Char.ofNat, dif_pos (Or.inl (by omega))]
    rfl
  · simp only [lc, if_neg h]

/-- Unpacked numeric form of `safeChar`. -/
theorem safeChar_spec {c : Char} (h : safeChar c = true) :
    32 ≤ c.toNat ∧ c.toNat ≤ 126 ∧ c.toNat ≠ 34 ∧ c.toNat ≠ 92 ∧ c.toNat ≠ 37 ∧
    c.toNat ≠ 95 ∧ c.toNat ≠ 44 ∧ c.toNat ≠ 60 ∧ c.toNat ≠ 62 ∧ c.toNat ≠ 38 := by
  simp [safeChar] at h
  omega

/-- Lower-casing preserves safety. -/
theorem safeChar_lc {c : Char} (h : safeChar c = true) : safeChar (lc c) = true := by
  have hs := safeChar_spec h
  have ht := toNat_lc c
  by_cases hup : 65 ≤ c.toNat ∧ c.toNat ≤ 90
  · rw [if_pos hup] at ht
    simp [safeChar]
    omega
  · rw [if_neg hup] at ht
    simp [safeChar]
    omega

/-- Safe characters are not quotes. -/
theorem safe_ne_quote {c : Char} (h : safeChar c = true) : c ≠ '"' :=
  ne_of_code (safeChar_spec h).2.2.1

/-- Safe characters are not the `%` wildcard. -/
theorem safe_ne_pct {c : Char} (h : safeChar c = true) : c ≠ '%' :=
  ne_of_code (safeChar_spec h).2.2.2.2.1

/-- Safe characters are not the `_` wildcard. -/
theorem safe_ne_us {c : Char} (h : safeChar c = true) : c ≠ '_' :=
  ne_of_code (safeChar_spec h).2.2.2.2.2.1

/-- Safe characters are not commas. -/
theorem safe_ne_comma {c : Char} (h : safeChar c = true) : c ≠ ',' :=
  ne_of_code (safeChar_spec h).2.2.2.2.2.2.1

/-- Quote-doubling is the identity on quote-free strings. -/
theorem escQuote_id {t : Str} (h : ∀ c ∈ t, c ≠ '"') : escQuote t = t := by
  induction t with
  | nil => rfl
  | cons c cs ih =>
    have hc : c ≠ '"' := h c (List.mem_cons_self c cs)
    simp only [escQuote, if_neg hc, List.cons.injEq, true_and]
    exact ih (fun d hd => h d (List.mem_cons_of_mem c hd))

/-- Unpacked form of `safeTag`. -/
theorem safeTag_spec {t : Str} (h : safeTag t = true) : ∀ c ∈ t, safeChar c = true := by
  simpa [safeTag, List.all_eq_true] using h

/-- The JSON encoder escapes nothing in a safe character. -/
theorem jsonEscapeChar_safe {c : Char} (h : safeChar c = true) : jsonEscapeChar c = [c] := by
  have hs := safeChar_spec h
  have h1 : c ≠ '"' := ne_of_code hs.2.2.1
  have h2 : c ≠ '\\' := ne_of_code hs.2.2.2.1
  have h3 : c ≠ '\n' := ne_of_code (show c.toNat ≠ 10 by omega)
  have h4 : c ≠ '\r' := ne_of_code (show c.toNat ≠ 13 by omega)
  have h5 : c ≠ '\t' := ne_of_code (show c.toNat ≠ 9 by omega)
  have h6 : ¬ c.toNat < 32 := by omega
  have h7 : c ≠ '<' := ne_of_code hs.2.2.2.2.2.2.2.1
  have h8 : c ≠ '>' := ne_of_code hs.2.2.2.2.2.2.2.2.1
  have h9 : c ≠ '&' := ne_of_code hs.2.2.2.2.2.2.2.2.2
  have h10 : ¬ c.toNat = 8232 := by omega
  have h11 : ¬ c.toNat = 8233 := by omega
  simp [jsonEscapeChar, h1, h2, h3, h4, h5, h6, h7, h8, h9, h10, h11]

/-- The JSON encoder is the identity on safe tags. -/
theorem jsonEscape_safe {t : Str} (h : safeTag t = true) : jsonEscape t = t := by
  induction t with
  | nil => rfl
  | cons c cs ih =>
    rw [safeTag, List.all_cons, Bool.and_eq_true] at h
    have hrest : jsonEscape cs = cs := ih h.2
    simp [jsonEscape, jsonEscapeChar_safe h.1]
    simpa [jsonEscape] using hrest

/-- A safe tag is marshalled as itself between two quotes. -/
theorem quotedTag_safe {t : Str} (h : safeTag t = true) :
    quotedTag t = '"' :: t ++ ['"'] := by
  simp [quotedTag, jsonEscape_safe h]

/-! ## C3: tag filtering — the LIKE matcher -/

/-- `%` at the head of the pattern against empty text. -/
theorem likeMatch_pct_nil (ps : Str) : likeMatch ('%' :: ps) [] = likeMatch ps [] := by
  simp [likeMatch]

/-- `%` at the head of the pattern against non-empty text. -/
theorem likeMatch_pct_cons (ps : Str) (c : Char) (s2 : Str) :
    likeMatch ('%' :: ps) (c :: s2) =
      (likeMatch ps (c :: s2) || likeMatch ('%' :: ps) s2) := by
  conv_lhs => rw [likeMatch]
  simp

/-- A literal pattern character never matches empty text. -/
theorem likeMatch_lit_nil {p : Char} (hp1 : p ≠ '%') (ps : Str) :
    likeMatch (p :: ps) [] = false := by
  simp [likeMatch, hp1]

/-- A literal pattern character matches one text character
case-insensitively. -/
theorem likeMatch_lit_cons {p : Char} (hp1 : p ≠ '%') (hp2 : p ≠ '_') (ps : Str)
    (a : Char) (s2 : Str) :
    likeMatch (p :: ps) (a :: s2) = (decide (lc p = lc a) && likeMatch ps s2) := by
  conv_lhs => rw [likeMatch]
  simp [hp1, hp2]

/-- A leading `%` matches exactly when the rest of the pattern matches
some suffix of the text. -/
theorem likeMatch_pct (ps : Str) :
    ∀ s, likeMatch ('%' :: ps) s = true ↔ ∃ n, likeMatch ps (s.drop n) = true := by
  intro s
  induction s with
  | nil =>
    rw [likeMatch_pct_nil]
    constructor
    · intro h
      exact ⟨0, h⟩
    · rintro ⟨n, h⟩
      simpa using h
  | cons c s2 ih =>
    rw [likeMatch_pct_cons, Bool.or_eq_true, ih]
    constructor
    · rintro (h | ⟨n, h⟩)
      · exact ⟨0, h⟩
      · exact ⟨n + 1, by simpa using h⟩
    · rintro ⟨n, h⟩
      cases n with
      | zero => exact Or.inl (by simpa using h)
      | succ n => exact Or.inr ⟨n, by simpa using h⟩

/-- A wildcard-free literal followed by `%` matches exactly the texts
having the literal as a case-insensitive prefix. -/
theorem likeMatch_lit (lit : Str) (hw : ∀ c ∈ lit, c ≠ '%' ∧ c ≠ '_') :
    ∀ s, likeMatch (lit ++ ['%']) s = true ↔ ∃ v, s.map lc = lit.map lc ++ v := by
  induction lit with
  | nil =>
    intro s
    simp only [List.nil_append, List.map_nil]
    constructor
    · intro _
      exact ⟨s.map lc, rfl⟩
    · intro _
      rw [likeMatch_pct]
      exact ⟨s.length, by simp [List.drop_length, likeMatch]⟩
  | cons p lit2 ih =>
    intro s
    have hp := hw p (List.mem_cons_self p lit2)
    have hw2 : ∀ c ∈ lit2, c ≠ '%' ∧ c ≠ '_' :=
      fun c hc => hw c (List.mem_cons_of_mem p hc)
    cases s with
    | nil =>
      rw [List.cons_append, likeMatch_lit_nil hp.1]
      simp
    | cons a s2 =>
      rw [List.cons_append, likeMatch_lit_cons hp.1 hp.2, Bool.and_eq_true,
        decide_eq_true_eq, ih hw2 s2]
      constructor
      · rintro ⟨hpa, v, hv⟩
        exact ⟨v, by simp [hpa, hv]⟩
      · rintro ⟨v, hv⟩
        simp only [List.map_cons, List.cons_append, List.cons.injEq] at hv
        exact ⟨hv.1.symm, v, hv.2⟩

/-- The pattern `%lit%` (with `lit` wildcard-free) matches exactly the
texts containing `lit` case-insensitively. -/
theorem likeMatch_pct_lit (lit : Str) (hw : ∀ c ∈ lit, c ≠ '%' ∧ c ≠ '_') (s : Str) :
    likeMatch ('%' :: (lit ++ ['%'])) s = true ↔
      ∃ u v, s.map lc = u ++ lit.map lc ++ v := by
  rw [likeMatch_pct]
  constructor
  · rintro ⟨n, h⟩
    rw [likeMatch_lit lit hw] at h
    obtain ⟨v, hv⟩ := h
    rw [List.map_drop] at hv
    refine ⟨(s.map lc).take n, v, ?_⟩
    calc s.map lc = (s.map lc).take n ++ (s.map lc).drop n :=
          (List.take_append_drop n _).symm
      _ = (s.map lc).take n ++ (lit.map lc ++ v) := by rw [hv]
      _ = (s.map lc).take n ++ lit.map lc ++ v := by rw [List.append_assoc]
  · rintro ⟨u, v, huv⟩
    refine ⟨u.length, ?_⟩
    rw [likeMatch_lit lit hw]
    refine ⟨v, ?_⟩
    rw [List.map_drop, huv, List.append_assoc, List.drop_left]

/-! ## C3: tag filtering — quote-delimited segments -/

/-- Prepending a character never empties the segment list. -/
theorem consHead_ne_nil (c : Char) (xs : List Str) : consHead c xs ≠ [] := by
  cases xs <;> simp [consHead]

/-- `splitQ` always yields at least one segment. -/
theorem splitQ_ne_nil (l : Str) : splitQ l ≠ [] := by
  cases l with
  | nil => simp [splitQ]
  | cons c cs => by_cases h : c = '"' <;> simp [splitQ, h, consHead_ne_nil]

/-- The segment list as a cons. -/
theorem splitQ_shape (l : Str) : ∃ s0 ss, splitQ l = s0 :: ss := by
  cases hs : splitQ l with
  | nil => exact absurd hs (splitQ_ne_nil l)
  | cons a b => exact ⟨a, b, rfl⟩

/-- Joining the segments with quotes reconstructs the string. -/
theorem joinQ_splitQ (l : Str) : joinQ (splitQ l) = l := by
  induction l with
  | nil => rfl
  | cons c cs ih =>
    obtain ⟨s, ss, hs⟩ := splitQ_shape cs
    rw [hs] at ih
    by_cases h : c = '"'
    · subst h
      simp only [splitQ, if_pos rfl, hs, joinQ, List.nil_append]
      simpa [joinQ] using ih
    · simp only [splitQ, if_neg h, hs, consHead]
      cases ss with
      | nil =>
        simp only [joinQ] at ih ⊢
        rw [ih]
      | cons s1 ss1 =>
        simp only [joinQ, List.cons_append] at ih ⊢
        rw [ih]

/-- `splitQ` of a quote-free prefix followed by a quote. -/
theorem splitQ_prepend (P : Str) (hP : ∀ c ∈ P, c ≠ '"') (v : Str) :
    splitQ (P ++ '"' :: v) = P :: splitQ v := by
  induction P with
  | nil => simp [splitQ]
  | cons c P2 ih =>
    have hc : c ≠ '"' := hP c (List.mem_cons_self _ _)
    have ih2 := ih (fun d hd => hP d (List.mem_cons_of_mem _ hd))
    show splitQ (c :: (P2 ++ '"' :: v)) = (c :: P2) :: splitQ v
    simp only [splitQ, if_neg hc]
    rw [ih2]
    rfl

/-- The bridge: a quote-free string `P` occurs quote-wrapped inside `L`
exactly when `P` is one of the interior quote-delimited segments of
`L`. -/
theorem quoted_mem_mid (P : Str) (hP : ∀ c ∈ P, c ≠ '"') :
    ∀ L : Str, (∃ u v, L = u ++ '"' :: P ++ '"' :: v) ↔
      P ∈ ((splitQ L).drop 1).dropLast := by
  intro L
  induction L with
  | nil =>
    constructor
    · rintro ⟨u, v, huv⟩
      cases u <;> simp at huv
    · intro h
      simp [splitQ] at h
  | cons c L2 ih =>
    obtain ⟨s0, ss, hs⟩ := splitQ_shape L2
    by_cases hc : c = '"'
    · subst hc
      have hsplit : splitQ ('"' :: L2) = [] :: splitQ L2 := by
        simp [splitQ]
      have hmid : ((splitQ ('"' :: L2)).drop 1).dropLast = (splitQ L2).dropLast := by
        rw [hsplit]
        rfl
      rw [hmid]
      constructor
      · rintro ⟨u, v, huv⟩
        cases u with
        | nil =>
          rw [List.nil_append] at huv
          have huv2 : L2 = P ++ '"' :: v := by
            injection huv
          have h2 : splitQ L2 = P :: splitQ v := by
            rw [huv2]
            exact splitQ_prepend P hP v
          obtain ⟨t0, ts, htv⟩ := splitQ_shape v
          rw [h2, htv, List.dropLast_cons₂]
          exact List.mem_cons_self _ _
        | cons u0 u2 =>
          rw [List.cons_append] at huv
          have huv2 : L2 = u2 ++ '"' :: P ++ '"' :: v := by
            injection huv
          have hmem := ih.mp ⟨u2, v, huv2⟩
          rw [hs] at hmem ⊢
          cases ss with
          | nil => simp at hmem
          | cons s1 ss1 =>
            simp only [List.drop_succ_cons, List.drop_zero] at hmem
            rw [List.dropLast_cons₂]
            exact List.mem_cons_of_mem s0 hmem
      · intro h
        rw [hs] at h
        cases ss with
        | nil => simp at h
        | cons s1 ss1 =>
          rw [List.dropLast_cons₂, List.mem_cons] at h
          rcases h with heq | hmem
          · subst heq
            refine ⟨[], joinQ (s1 :: ss1), ?_⟩
            have hrec : joinQ (splitQ L2) = L2 := joinQ_splitQ L2
            rw [hs] at hrec
            simp only [joinQ, List.cons_append] at hrec
            rw [List.nil_append, ← hrec]
            rfl
          · have hmem2 : P ∈ ((splitQ L2).drop 1).dropLast := by
              rw [hs]
              simpa using hmem
            obtain ⟨u, v, huv⟩ := ih.mpr hmem2
            exact ⟨'"' :: u, v, by simp [huv]⟩
    · have hsplit : splitQ (c :: L2) = (c :: s0) :: ss := by
        simp [splitQ, hc, hs, consHead]
      have hmid : ((splitQ (c :: L2)).drop 1).dropLast = ((splitQ L2).drop 1).dropLast := by
        rw [hsplit, hs]
        rfl
      rw [hmid, ← ih]
      constructor
      · rintro ⟨u, v, huv⟩
        cases u with
        | nil =>
          rw [List.nil_append] at huv
          have : c = '"' := by injection huv
          exact absurd this hc
        | cons u0 u2 =>
          rw [List.cons_append] at huv
          have huv2 : L2 = u2 ++ '"' :: P ++ '"' :: v := by
            injection huv
          exact ⟨u2, v, huv2⟩
      · rintro ⟨u, v, huv⟩
        exact ⟨c :: u, v, by simp [huv]⟩

/-! ## C3: tag filtering — the serialized column -/

/-- Lower-casing preserves tag safety. -/
theorem safeTag_lc {t : Str} (h : safeTag t = true) : safeTag (t.map lc) = true := by
  have hs := safeTag_spec h
  rw [safeTag, List.all_eq_true]
  intro c hc
  rw [List.mem_map] at hc
  obtain ⟨d, hd, rfl⟩ := hc
  exact safeChar_lc (hs d hd)

/-- Lower-casing a marshalled element is marshalling the lower-cased
tag. -/
theorem map_lc_quotedTag {t : Str} (h : safeTag t = true) :
    (quotedTag t).map lc = quotedTag (t.map lc) := by
  have h2 : safeTag (t.map lc) = true := safeTag_lc h
  rw [quotedTag_safe h, quotedTag_safe h2]
  have hq : lc '"' = '"' := by decide
  simp [hq]

/-- Lower-casing commutes with the array body. -/
theorem map_lc_tagsBody : ∀ (T : List Str), (∀ t ∈ T, safeTag t = true) →
    (tagsBody T).map lc = tagsBody (T.map (List.map lc)) := by
  intro T
  induction T with
  | nil => intro _; rfl
  | cons t rest ih =>
    intro hT
    cases rest with
    | nil =>
      show (quotedTag t).map lc = tagsBody [t.map lc]
      rw [map_lc_quotedTag (hT t (List.mem_cons_self _ _))]
      rfl
    | cons t2 rest2 =>
      have hcomma : lc ',' = ',' := by decide
      show (quotedTag t ++ ',' :: tagsBody (t2 :: rest2)).map lc = _
      rw [List.map_append, List.map_cons, hcomma,
        map_lc_quotedTag (hT t (List.mem_cons_self _ _)),
        ih (fun x hx => hT x (List.mem_cons_of_mem _ hx))]
      rfl

/-- Lower-casing commutes with the whole serialized column. -/
theorem map_lc_serializeTags (T : List Str) (hT : ∀ t ∈ T, safeTag t = true) :
    (serializeTags T).map lc = serializeTags (T.map (List.map lc)) := by
  have hb := map_lc_tagsBody T hT
  have h1 : lc '[' = '[' := by decide
  have h2 : lc ']' = ']' := by decide
  simp [serializeTags, hb, h1, h2]

/-- The quote-delimited segments of the array body followed by the
closing bracket. -/
theorem splitQ_body : ∀ (T : List Str), T ≠ [] → (∀ t ∈ T, safeTag t = true) →
    splitQ (tagsBody T ++ [']']) = [] :: (midTags T ++ [[']']]) := by
  intro T
  induction T with
  | nil => intro h _; exact absurd rfl h
  | cons t rest ih =>
    intro _ hT
    have hts := safeTag_spec (hT t (List.mem_cons_self _ _))
    have htq : ∀ c ∈ t, c ≠ '"' := fun c hc => safe_ne_quote (hts c hc)
    cases rest with
    | nil =>
      show splitQ (quotedTag t ++ [']']) = [] :: (midTags [t] ++ [[']']])
      rw [quotedTag_safe (hT t (List.mem_cons_self _ _))]
      have hshape : ('"' :: t ++ ['"']) ++ [']'] = '"' :: (t ++ '"' :: [']']) := by simp
      rw [hshape]
      simp only [splitQ, if_pos rfl]
      rw [splitQ_prepend t htq]
      rfl
    | cons t2 rest2 =>
      show splitQ ((quotedTag t ++ ',' :: tagsBody (t2 :: rest2)) ++ [']']) = _
      rw [quotedTag_safe (hT t (List.mem_cons_self _ _))]
      have hshape : (('"' :: t ++ ['"']) ++ ',' :: tagsBody (t2 :: rest2)) ++ [']'] =
          '"' :: (t ++ '"' :: (',' :: (tagsBody (t2 :: rest2) ++ [']']))) := by simp
      rw [hshape]
      simp only [splitQ, if_pos rfl]
      rw [splitQ_prepend t htq]
      have hcm : (',' : Char) ≠ '"' := by decide
      simp only [splitQ, if_neg hcm]
      rw [ih (by simp) (fun x hx => hT x (List.mem_cons_of_mem _ hx))]
      rfl

/-- The interior segments of a serialized safe tag column are the tags
alternating with commas. -/
theorem mid_serializeTags (T : List Str) (hT : ∀ t ∈ T, safeTag t = true) :
    ((splitQ (serializeTags T)).drop 1).dropLast = midTags T := by
  cases T with
  | nil => rfl
  | cons t rest =>
    have hbody := splitQ_body (t :: rest) (by simp) hT
    have hbrk : ('[' : Char) ≠ '"' := by decide
    show ((splitQ ('[' :: (tagsBody (t :: rest) ++ [']']))).drop 1).dropLast = _
    simp only [splitQ, if_neg hbrk, hbody, consHead]
    simp [List.dropLast_concat]

/-- Membership among the interior segments, for a candidate that is not
the comma separator. -/
theorem mem_midTags {P : Str} (hP : P ≠ [',']) :
    ∀ (T : List Str), P ∈ midTags T ↔ P ∈ T := by
  intro T
  induction T with
  | nil => simp [midTags]
  | cons t rest ih =>
    cases rest with
    | nil => simp [midTags]
    | cons t2 rest2 =>
      show P ∈ t :: [','] :: midTags (t2 :: rest2) ↔ _
      simp [List.mem_cons, hP, ih]

/-- The prefix test is prefix decomposition. -/
theorem startsList_iff [DecidableEq α] : ∀ (P L : List α),
    startsList P L = true ↔ ∃ v, L = P ++ v := by
  intro P
  induction P with
  | nil =>
    intro L
    simp [startsList]
  | cons a P2 ih =>
    intro L
    cases L with
    | nil => simp [startsList]
    | cons b L2 =>
      rw [startsList, Bool.and_eq_true, decide_eq_true_eq, ih L2]
      constructor
      · rintro ⟨rfl, v, rfl⟩
        exact ⟨v, rfl⟩
      · rintro ⟨v, hv⟩
        rw [List.cons_append] at hv
        have h1 : b = a := by injection hv
        have h2 : L2 = P2 ++ v := by injection hv
        exact ⟨h1.symm, v, h2⟩

/-- The contiguous-occurrence test is infix decomposition. -/
theorem isChunkOf_iff [DecidableEq α] (P : List α) : ∀ (L : List α),
    isChunkOf P L = true ↔ ∃ u v, L = u ++ P ++ v := by
  intro L
  induction L with
  | nil =>
    rw [isChunkOf]
    constructor
    · intro h
      have hP : P = [] := by simpa [List.isEmpty_iff] using h
      exact ⟨[], [], by simp [hP]⟩
    · rintro ⟨u, v, huv⟩
      have hnil := huv.symm
      simp only [List.append_eq_nil] at hnil
      simp [List.isEmpty_iff, hnil.1.2]
  | cons a L2 ih =>
    rw [isChunkOf, Bool.or_eq_true, ih, startsList_iff]
    constructor
    · rintro (⟨v, hv⟩ | ⟨u, v, huv⟩)
      · exact ⟨[], v, by simp [hv]⟩
      · exact ⟨a :: u, v, by simp [huv]⟩
    · rintro ⟨u, v, huv⟩
      cases u with
      | nil =>
        left
        exact ⟨v, by simpa using huv⟩
      | cons u0 u2 =>
        right
        rw [List.cons_append, List.cons_append] at huv
        have h2 : L2 = u2 ++ P ++ v := by injection huv
        exact ⟨u2, v, h2⟩

/-! ## C3: tag filtering — the filter characterization -/

/-- For a safe tag, the built pattern is the quoted tag in `%`
delimiters. -/
theorem tagPattern_eq {s : Str} (h : safeTag s = true) :
    tagPattern s = '%' :: (('"' :: (s ++ ['"'])) ++ ['%']) := by
  have he : escQuote s = s :=
    escQuote_id (fun c hc => safe_ne_quote (safeTag_spec h c hc))
  simp [tagPattern, he]

/-- One safe filter tag's LIKE condition holds on a serialized safe
column exactly when the tag matches one of the stored tags up to ASCII
case. -/
theorem tagLike_iff (s : Str) (hsafe : safeTag s = true) (T : List Str)
    (hT : ∀ t ∈ T, safeTag t = true) :
    likeMatch (tagPattern s) (serializeTags T) = true ↔
      ∃ t ∈ T, s.map lc = t.map lc := by
  have hsP : ∀ c ∈ s, safeChar c = true := safeTag_spec hsafe
  have hPq : ∀ c ∈ s.map lc, c ≠ '"' := by
    intro c hcP
    rw [List.mem_map] at hcP
    obtain ⟨d, hd, rfl⟩ := hcP
    exact safe_ne_quote (safeChar_lc (hsP d hd))
  have hPne : s.map lc ≠ [','] := by
    intro he
    cases s with
    | nil => simp at he
    | cons d rest =>
      rw [List.map_cons] at he
      have h1 : lc d = ',' := by injection he
      have h44 : (lc d).toNat = 44 := by rw [h1]; rfl
      have hspec := safeChar_spec (safeChar_lc (hsP d (List.mem_cons_self _ _)))
      exact hspec.2.2.2.2.2.2.1 h44
  have hw : ∀ c ∈ ('"' :: (s ++ ['"'])), c ≠ '%' ∧ c ≠ '_' := by
    intro c hc
    rcases List.mem_cons.mp hc with rfl | hc2
    · exact ⟨by decide, by decide⟩
    · rcases List.mem_append.mp hc2 with hcs | hcq
      · exact ⟨safe_ne_pct (hsP c hcs), safe_ne_us (hsP c hcs)⟩
      · rw [List.mem_singleton] at hcq
        subst hcq
        exact ⟨by decide, by decide⟩
  have hTlc : ∀ t2 ∈ T.map (List.map lc), safeTag t2 = true := by
    intro t2 ht2
    rw [List.mem_map] at ht2
    obtain ⟨t, ht, rfl⟩ := ht2
    exact safeTag_lc (hT t ht)
  have hser : (serializeTags T).map lc = serializeTags (T.map (List.map lc)) :=
    map_lc_serializeTags T hT
  have hlit : ('"' :: (s ++ ['"'])).map lc = '"' :: (s.map lc ++ ['"']) := by
    have hq : lc '"' = '"' := by decide
    simp [hq]
  rw [tagPattern_eq hsafe, likeMatch_pct_lit _ hw]
  constructor
  · rintro ⟨u, v, huv⟩
    rw [hser, hlit] at huv
    have huv2 : serializeTags (T.map (List.map lc)) = u ++ '"' :: s.map lc ++ '"' :: v := by
      rw [huv]
      simp
    have hmem := (quoted_mem_mid (s.map lc) hPq _).mp ⟨u, v, huv2⟩
    rw [mid_serializeTags _ hTlc, mem_midTags hPne, List.mem_map] at hmem
    obtain ⟨t, ht, htP⟩ := hmem
    exact ⟨t, ht, htP.symm⟩
  · rintro ⟨t, ht, hst⟩
    have hmem : s.map lc ∈ ((splitQ (serializeTags (T.map (List.map lc)))).drop 1).dropLast := by
      rw [mid_serializeTags _ hTlc, mem_midTags hPne, List.mem_map]
      exact ⟨t, ht, hst.symm⟩
    obtain ⟨u, v, huv⟩ := (quoted_mem_mid (s.map lc) hPq _).mpr hmem
    refine ⟨u, v, ?_⟩
    rw [hser, hlit, huv]
    simp

/-- The whole tag filter (AND over the filter tags) on a serialized safe
column. -/
theorem tagFilter_iff (S T : List Str) (hS : ∀ s ∈ S, safeTag s = true)
    (hT : ∀ t ∈ T, safeTag t = true) :
    tagFilter S (serializeTags T) = true ↔
      ∀ s ∈ S, ∃ t ∈ T, s.map lc = t.map lc := by
  rw [tagFilter, List.all_eq_true]
  constructor
  · intro h s hs
    exact (tagLike_iff s (hS s hs) T hT).mp (h s hs)
  · intro h s hs
    exact (tagLike_iff s (hS s hs) T hT).mpr (h s hs)

/-- C3 (amended): for filter and stored tags made of plain characters
(printable ASCII other than the quote, backslash, `%`, `_`, comma and the
JSON-escaped `<`, `>`, `&`), a fact stored with tag set `T` and queried
with a non-empty tag filter `S` is returned by `getFacts` exactly when
every tag of `S` equals some tag of `T` up to ASCII case (`LIKE` is
case-insensitive); AND semantics over `S`, exact-tag match, no prefix or
accidental-substring match. -/
theorem GetFacts_tagFilter (T S : List Str) (hS : ∀ s ∈ S, safeTag s = true)
    (hT : ∀ t ∈ T, safeTag t = true) (_hSne : S ≠ []) (r : FactRow) (lim : Int)
    (hr : r.tags = serializeTags T) :
    scanFact r ∈ GetFacts [r] [] S [] lim ↔
      ∀ s ∈ S, ∃ t ∈ T, s.map lc = t.map lc := by
  have hfla : factWhere [] S [] r = tagFilter S r.tags := by
    simp [factWhere]
  by_cases hcond : tagFilter S r.tags = true
  · have hw : factWhere [] S [] r = true := by rw [hfla]; exact hcond
    have hpos := clampLimit_pos lim
    obtain ⟨k, hk⟩ : ∃ k, clampLimit lim = k + 1 := ⟨clampLimit lim - 1, by omega⟩
    have hres : GetFacts [r] [] S [] lim = [scanFact r] := by
      simp [GetFacts, hw, sortByUpdatedDesc, insertDesc, hk]
    rw [hres]
    constructor
    · intro _
      rw [hr] at hcond
      exact (tagFilter_iff S T hS hT).mp hcond
    · intro _
      exact List.mem_cons_self _ _
  · have hw : factWhere [] S [] r = false := by
      rw [hfla]
      exact Bool.eq_false_iff.mpr hcond
    have hres : GetFacts [r] [] S [] lim = [] := by
      simp [GetFacts, hw, sortByUpdatedDesc]
    rw [hres]
    constructor
    · intro h
      exact absurd h (List.not_mem_nil _)
    · intro hall
      have hc2 : tagFilter S (serializeTags T) = true := (tagFilter_iff S T hS hT).mpr hall
      rw [← hr] at hc2
      exact absurd hc2 hcond

/-- Counterexample for C3 as stated: the tag `a"b` is in the stored tag
set, yet the filter `{a"b}` does not return the fact — the quote-doubling
combined with the JSON escaping makes a quoted tag unmatchable, so
"included if every tag of S is in T" fails. -/
theorem GetFacts_tagFilter_quoteCounterexample :
    c3Tag ∈ [c3Tag] ∧
    c3Row.tags = serializeTags [c3Tag] ∧
    scanFact c3Row ∉ GetFacts [c3Row] [] [c3Tag] [] 10 := by
  refine ⟨List.mem_cons_self _ _, rfl, ?_⟩
  have hw2 : ∀ c ∈ ('"' :: (escQuote c3Tag ++ ['"'])), c ≠ '%' ∧ c ≠ '_' := by decide
  have hpat : tagPattern c3Tag = '%' :: (('"' :: (escQuote c3Tag ++ ['"'])) ++ ['%']) := by
    simp [tagPattern]
  have hlike : likeMatch (tagPattern c3Tag) (serializeTags [c3Tag]) = false := by
    rw [Bool.eq_false_iff]
    intro h
    rw [hpat, likeMatch_pct_lit _ hw2] at h
    obtain ⟨u, v, huv⟩ := h
    have hchunk : isChunkOf (('"' :: (escQuote c3Tag ++ ['"'])).map lc)
        ((serializeTags [c3Tag]).map lc) = true := by
      rw [isChunkOf_iff]
      exact ⟨u, v, huv⟩
    exact absurd hchunk (by decide)
  have hw : factWhere [] [c3Tag] [] c3Row = false := by
    simp [factWhere, tagFilter, c3Row, hlike]
  simp [GetFacts, hw, sortByUpdatedDesc]

/-- Witness for C3 at plain tags: the filter `Arch` matches the stored
tag `arch` (case-insensitively), and the equivalence instance holds. -/
theorem GetFacts_tagFilter_witness :
    (scanFact c3SafeRow ∈ GetFacts [c3SafeRow] [] ["Arch".data] [] 10 ↔
      ∀ s ∈ ["Arch".data], ∃ t ∈ ["arch".data], s.map lc = t.map lc) ∧
    scanFact c3SafeRow ∈ GetFacts [c3SafeRow] [] ["Arch".data] [] 10 := by
  have h := GetFacts_tagFilter ["arch".data] ["Arch".data] (by decide) (by decide)
      (by decide) c3SafeRow 10 rfl
  exact ⟨h, h.mpr (by decide)⟩

end Clauder
